import Mathlib

/-!
Shallow embedding of the Gantt timeline core of the `ganttra` repository.

Dates are modelled at day granularity as plain integers, counting
days from an epoch chosen so that day 0 is the start of a week (the source
uses the Persian locale of `jalali-moment`, whose weeks start on Saturday;
only the 7-day period structure matters for the properties below, so the
epoch is fixed at a week start).  All `jalali-moment` operations used by the
source are day-granularity operations and translate exactly:

  * `jMoment(a).diff(b, "days")`            ↦ `a - b`
  * `jMoment(a).diff(b, "weeks")`           ↦ `Int.tdiv (a - b) 7` (moment
    truncates toward zero; the source only applies it to week starts, where
    the difference is an exact multiple of 7)
  * `startOf("week")` / `endOf("week")`     ↦ `startOfWeek` / `endOfWeek`
  * `isSame(_, "day")` / `isSame(_, "week")`↦ equality / `isSameWeek`
  * `add`/`subtract` of days and weeks      ↦ integer addition

Pixel positions are integers except where the source divides
(`Math.round(x / cellWidth)`, the today indicator's fractional week offset);
those are modelled over `ℚ`, with `jsRound` implementing JavaScript's
`Math.round` (round half toward positive infinity).
-/

namespace Ganttra

/-- The two timeline view modes (src/lib/types.ts). -/
inductive TimelineView where
  | daily
  | weekly
deriving DecidableEq, Repr

/-- A schedulable task (src/lib/types.ts `GanttTask`). -/
structure GanttTask where
  id : String
  title : String
  startDate : Int
  endDate : Int
  progress : Option Int
  color : Option String
  projectId : String
  groupId : Option String
deriving DecidableEq, Repr

/-- A task group (src/lib/types.ts `TaskGroup`). -/
structure TaskGroup where
  id : String
  title : String
  projectId : String
  color : Option String
  isExpanded : Option Bool
  createdAt : Int
deriving DecidableEq, Repr

/-- Timeline configuration (src/lib/types.ts `GanttConfig`). -/
structure GanttConfig where
  view : TimelineView
  startDate : Int
  endDate : Int
  cellWidth : Int
  rowHeight : Int
deriving DecidableEq, Repr

/-- Result record of `calculateGanttDimensions` (src/lib/gantt-utils.ts). -/
structure GanttDimensions where
  startDate : Int
  endDate : Int
  cellWidth : Int
  rowHeight : Int
deriving DecidableEq, Repr

/-- Result record of `calculateTaskPosition`: `left` is the pixel offset from
the timeline's leading edge, `width` the bar length. -/
structure TaskPosition where
  left : Int
  width : Int
deriving DecidableEq, Repr

/-- Start of the week containing `d` (`jMoment(d).startOf("week")`); day 0 of
the epoch is a week start, so this is `d` rounded down to a multiple of 7. -/
def startOfWeek (d : Int) : Int := d - d % 7

/-- Last day of the week containing `d` (`jMoment(d).endOf("week")` at day
granularity). -/
def endOfWeek (d : Int) : Int := startOfWeek d + 6

/-- Week-granularity equality (`jMoment(a).isSame(b, "week")`). -/
def isSameWeek (a b : Int) : Bool := startOfWeek a == startOfWeek b

/-- Day difference, `jMoment(a).diff(b, "days")` at day granularity. -/
def diffDays (a b : Int) : Int := a - b

/-- Week difference, `jMoment(a).diff(b, "weeks")`: moment truncates the
fractional week count toward zero. -/
def diffWeeks (a b : Int) : Int := Int.tdiv (a - b) 7

/-- JavaScript `Math.round`: round half toward positive infinity. -/
def jsRound (q : ℚ) : Int := ⌊q + 1/2⌋

/-- Daily enumeration loop of `generateTimelineDates`
(src/lib/gantt-utils.ts lines 77-82): push `current`, step one day, while
`current.isSameOrBefore(end, "day")`. -/
def dailyGo (c e : Int) : List Int :=
  if h : c ≤ e then c :: dailyGo (c + 1) e else []
termination_by (e + 1 - c).toNat
decreasing_by
  omega

/-- Weekly enumeration loop of `generateTimelineDates`
(src/lib/gantt-utils.ts lines 84-88): push `current`, step one week, while
`current.isSameOrBefore(end, "week")`. -/
def weeklyGo (c e : Int) : List Int :=
  if h : startOfWeek c ≤ startOfWeek e then c :: weeklyGo (c + 7) e else []
termination_by (startOfWeek e + 7 - c).toNat
decreasing_by
  simp only [startOfWeek] at *
  omega

/-- Timeline enumerator (src/lib/gantt-utils.ts `generateTimelineDates`). -/
def generateTimelineDates (startDate endDate : Int) (view : TimelineView) :
    List Int :=
  match view with
  | .daily => dailyGo startDate endDate
  | .weekly => weeklyGo (startOfWeek startDate) endDate

/-- Forward position mapper (src/lib/gantt-utils.ts `calculateTaskPosition`). -/
def calculateTaskPosition (task : GanttTask) (config : GanttConfig) :
    TaskPosition :=
  match config.view with
  | .daily =>
      let startDiff := diffDays task.startDate config.startDate
      let duration := diffDays task.endDate task.startDate + 1
      { left := startDiff * config.cellWidth
        width := duration * config.cellWidth - 2 }
  | .weekly =>
      let configStartWeek := startOfWeek config.startDate
      let taskStartWeek := startOfWeek task.startDate
      let taskEndWeek := startOfWeek task.endDate
      let weeksFromStart := diffWeeks taskStartWeek configStartWeek
      let taskDurationInWeeks := max 1 (diffWeeks taskEndWeek taskStartWeek + 1)
      { left := weeksFromStart * config.cellWidth
        width := taskDurationInWeeks * config.cellWidth - 2 }

/-- Minimum task start (`Math.min(...tasks.map(t => t.startDate.getTime()))`
over a non-empty list; the head seeds the fold). -/
def minStart (t : GanttTask) (ts : List GanttTask) : Int :=
  ts.foldl (fun m u => min m u.startDate) t.startDate

/-- Maximum task end (`Math.max(...tasks.map(t => t.endDate.getTime()))`). -/
def maxEnd (t : GanttTask) (ts : List GanttTask) : Int :=
  ts.foldl (fun m u => max m u.endDate) t.endDate

/-- Range calculator (src/lib/gantt-utils.ts `calculateGanttDimensions`).
The source reads the clock (`new Date()`) in its empty-list branch; the
current instant is passed explicitly as `now`. -/
def calculateGanttDimensions (now : Int) (tasks : List GanttTask)
    (view : TimelineView) : GanttDimensions :=
  match tasks with
  | [] =>
      { startDate := now
        endDate := now
        cellWidth := if view = .daily then 60 else 120
        rowHeight := 50 }
  | t :: ts =>
      let startDate := minStart t ts
      let endDate := maxEnd t ts
      let paddedStart :=
        if view = .weekly then startOfWeek (startDate - 7) else startDate - 7
      let paddedEnd :=
        if view = .weekly then endOfWeek (endDate + 7) else endDate + 7
      { startDate := paddedStart
        endDate := paddedEnd
        cellWidth := if view = .daily then 60 else 120
        rowHeight := 50 }

/-- Inverse mapper (src/components/GanttTaskBar.tsx `getDateFromPosition`):
round the pixel offset to a cell index, clamp it to the enumerated range,
and index into the enumerated sequence. -/
def getDateFromPosition (config : GanttConfig) (x : ℚ) : Option Int :=
  let timelineDates :=
    generateTimelineDates config.startDate config.endDate config.view
  let cellIndex := jsRound (x / (config.cellWidth : ℚ))
  let clampedIndex := max 0 (min cellIndex ((timelineDates.length : Int) - 1))
  timelineDates[clampedIndex.toNat]?

/-- Start-edge resize step (src/components/GanttTaskBar.tsx lines 104-111):
the candidate start date is accepted only if it `isBefore` the current end
date, and an accepted update touches only `startDate`. -/
def resizeLeftStep (task : GanttTask) (newStartDate : Int) : GanttTask :=
  if newStartDate < task.endDate then { task with startDate := newStartDate }
  else task

/-- End-edge resize step (src/components/GanttTaskBar.tsx lines 112-119):
the candidate end date is accepted only if it `isAfter` the current start
date, and an accepted update touches only `endDate`. -/
def resizeRightStep (task : GanttTask) (newEndDate : Int) : GanttTask :=
  if task.startDate < newEndDate then { task with endDate := newEndDate }
  else task

/-- Row of the organized layout (src/components/Gantt.tsx `GanttRow`): a
group-header row or a task row, carrying its 0-based visual row index. -/
inductive GanttRow where
  | group (g : TaskGroup) (index : Nat)
  | task (t : GanttTask) (index : Nat)
deriving DecidableEq, Repr

/-- Bucket key of a task in the organizer's `reduce`
(`task.groupId || "ungrouped"`, src/components/Gantt.tsx line 58). -/
def bucketKey (t : GanttTask) : String := t.groupId.getD "ungrouped"

/-- The bucket stored under key `k` by the organizer's `reduce`; pushing in
list order preserves the task list's original relative order. -/
def tasksByGroup (tasks : List GanttTask) (k : String) : List GanttTask :=
  tasks.filter (fun t => bucketKey t == k)

/-- Emit one task row per task, threading the organizer's mutable row
counter (`index++`). -/
def emitTasks : List GanttTask → Nat → List GanttRow × Nat
  | [], i => ([], i)
  | t :: ts, i =>
      let rest := emitTasks ts (i + 1)
      (GanttRow.task t i :: rest.1, rest.2)

/-- Emit, for each group in order, its header row followed by its bucket's
task rows (src/components/Gantt.tsx lines 67-86), threading the counter. -/
def emitGroups (tasks : List GanttTask) :
    List TaskGroup → Nat → List GanttRow × Nat
  | [], i => ([], i)
  | g :: gs, i =>
      let members := emitTasks (tasksByGroup tasks g.id) (i + 1)
      let rest := emitGroups tasks gs members.2
      (GanttRow.group g i :: members.1 ++ rest.1, rest.2)

/-- Row organizer (src/components/Gantt.tsx `organizedRows`): group sections
in group-list order, then the `"ungrouped"` bucket with no header. -/
def organizedRows (tasks : List GanttTask) (groups : List TaskGroup) :
    List GanttRow :=
  let grouped := emitGroups tasks groups 0
  grouped.1 ++ (emitTasks (tasksByGroup tasks "ungrouped") grouped.2).1

/-- Row index carried by a row. -/
def rowIndex : GanttRow → Nat
  | .group _ i => i
  | .task _ i => i

/-- Today locator (src/components/Gantt.tsx `TodayIndicator`): pixel offset
of the today line from the leading edge, `none` when today falls outside
the enumerated cells.  The source reads the clock (`new Date()`); the
current day is passed explicitly as `today`. -/
def todayPosition (config : GanttConfig) (today : Int) : Option ℚ :=
  let timelineDates :=
    generateTimelineDates config.startDate config.endDate config.view
  match config.view with
  | .daily =>
      match timelineDates.findIdx? (fun d => d == today) with
      | none => none
      | some i =>
          some ((i : ℚ) * config.cellWidth + (config.cellWidth : ℚ) / 2)
  | .weekly =>
      match timelineDates.findIdx? (fun d => isSameWeek today d) with
      | none => none
      | some i =>
          let weekStart := startOfWeek (timelineDates.getD i 0)
          let dayInWeek := today - weekStart
          some ((i : ℚ) * config.cellWidth +
            ((dayInWeek : ℚ) / 7) * config.cellWidth)

def c2Task : GanttTask :=
  { id := "t", title := "t", startDate := 3, endDate := 5, progress := none,
    color := none, projectId := "p", groupId := none }

def c2Config : GanttConfig :=
  { view := .daily, startDate := 0, endDate := 20, cellWidth := 60,
    rowHeight := 50 }

def c3Task : GanttTask :=
  { id := "t", title := "t", startDate := 10, endDate := 3, progress := none,
    color := none, projectId := "p", groupId := none }

def c3Config : GanttConfig :=
  { view := .weekly, startDate := 0, endDate := 30, cellWidth := 120,
    rowHeight := 50 }

def c8Task : GanttTask :=
  { id := "t", title := "t", startDate := 2, endDate := 5, progress := none,
    color := none, projectId := "p", groupId := none }

def c4Task1 : GanttTask :=
  { id := "a", title := "a", startDate := 10, endDate := 12, progress := none,
    color := none, projectId := "p", groupId := none }

def c4Task2 : GanttTask :=
  { id := "b", title := "b", startDate := 4, endDate := 25, progress := none,
    color := none, projectId := "p", groupId := none }

/-- Shape of a row with its index erased, used to compare the organizer's
output against the specified ordering. -/
inductive RowShape where
  | group (g : TaskGroup)
  | task (t : GanttTask)
deriving DecidableEq, Repr

/-- Forget a row's index, keeping its payload. -/
def rowShape : GanttRow → RowShape
  | .group g _ => .group g
  | .task t _ => .task t

def c6Group1 : TaskGroup :=
  { id := "G1", title := "G1", projectId := "p", color := none,
    isExpanded := none, createdAt := 0 }

def c6Group2 : TaskGroup :=
  { id := "G2", title := "G2", projectId := "p", color := none,
    isExpanded := none, createdAt := 0 }

def c6T1 : GanttTask :=
  { id := "T1", title := "T1", startDate := 0, endDate := 1, progress := none,
    color := none, projectId := "p", groupId := some "G1" }

def c6T2 : GanttTask :=
  { id := "T2", title := "T2", startDate := 0, endDate := 1, progress := none,
    color := none, projectId := "p", groupId := none }

def c6T3 : GanttTask :=
  { id := "T3", title := "T3", startDate := 0, endDate := 1, progress := none,
    color := none, projectId := "p", groupId := some "G2" }

def c6T4 : GanttTask :=
  { id := "T4", title := "T4", startDate := 0, endDate := 1, progress := none,
    color := none, projectId := "p", groupId := some "G1" }

def c7Task : GanttTask :=
  { id := "t", title := "t", startDate := 0, endDate := 1, progress := none,
    color := none, projectId := "p", groupId := some "g1" }

def c1Task : GanttTask :=
  { id := "t", title := "t", startDate := 5, endDate := 8, progress := none,
    color := none, projectId := "p", groupId := none }

def c1Config : GanttConfig :=
  { view := .daily, startDate := 0, endDate := 20, cellWidth := 60,
    rowHeight := 50 }

/-- The per-view match predicate tested by the today locator's `findIndex`:
same day as today in daily view, same week as today in weekly view. -/
def todayMatches (view : TimelineView) (today d : Int) : Bool :=
  match view with
  | .daily => d == today
  | .weekly => isSameWeek today d

def c10Config : GanttConfig :=
  { view := .daily, startDate := 3, endDate := 9, cellWidth := 60,
    rowHeight := 50 }

/-! Basic week-arithmetic lemmas. -/

theorem startOfWeek_le (d : Int) : startOfWeek d ≤ d := by
  simp only [startOfWeek]; omega

theorem le_endOfWeek (d : Int) : d ≤ endOfWeek d := by
  simp only [endOfWeek, startOfWeek]; omega

theorem startOfWeek_idem (d : Int) : startOfWeek (startOfWeek d) = startOfWeek d := by
  simp only [startOfWeek]; omega

theorem startOfWeek_mono {a b : Int} (h : a ≤ b) : startOfWeek a ≤ startOfWeek b := by
  simp only [startOfWeek]; omega

theorem dvd_startOfWeek (d : Int) : (7 : Int) ∣ startOfWeek d := by
  simp only [startOfWeek]; omega

/-! Characterization of the enumeration loops: `dailyGo c e` is the list
`[c, c+1, …, e]` and, started at a week start, `weeklyGo c e` is the list
`[c, c+7, …, startOfWeek e]`. -/

theorem dailyGo_length (c e : Int) : (dailyGo c e).length = (e + 1 - c).toNat := by
  induction c, e using dailyGo.induct with
  | case1 c e h ih =>
      rw [dailyGo, dif_pos h]
      simp only [List.length_cons, ih]
      omega
  | case2 c e h =>
      rw [dailyGo, dif_neg h]
      simp only [List.length_nil]
      omega

theorem dailyGo_getElem (c e : Int) (k : Nat) (hk : k < (e + 1 - c).toNat) :
    (dailyGo c e)[k]? = some (c + k) := by
  induction c, e using dailyGo.induct generalizing k with
  | case1 c e h ih =>
      rw [dailyGo, dif_pos h]
      match k with
      | 0 => simp
      | k + 1 =>
          simp only [List.getElem?_cons_succ]
          rw [ih k (by omega)]
          congr 1
          push_cast
          ring
  | case2 c e h =>
      omega

theorem weeklyGo_length (c e : Int) (hc : startOfWeek c = c) :
    (weeklyGo c e).length = ((startOfWeek e - c) / 7 + 1).toNat := by
  induction c, e using weeklyGo.induct with
  | case1 c e h ih =>
      rw [weeklyGo, dif_pos h]
      have hc7 : startOfWeek (c + 7) = c + 7 := by
        simp only [startOfWeek] at hc ⊢; omega
      simp only [List.length_cons, ih hc7]
      simp only [startOfWeek] at h hc ⊢
      omega
  | case2 c e h =>
      rw [weeklyGo, dif_neg h]
      simp only [List.length_nil]
      simp only [startOfWeek] at h hc ⊢
      omega

theorem weeklyGo_getElem (c e : Int) (hc : startOfWeek c = c) (k : Nat)
    (hk : k < ((startOfWeek e - c) / 7 + 1).toNat) :
    (weeklyGo c e)[k]? = some (c + 7 * k) := by
  induction c, e using weeklyGo.induct generalizing k with
  | case1 c e h ih =>
      rw [weeklyGo, dif_pos h]
      have hc7 : startOfWeek (c + 7) = c + 7 := by
        simp only [startOfWeek] at hc ⊢; omega
      match k with
      | 0 => simp
      | k + 1 =>
          simp only [List.getElem?_cons_succ]
          rw [ih hc7 k (by simp only [startOfWeek] at hk hc ⊢; omega)]
          congr 1
          push_cast
          ring
  | case2 c e h =>
      simp only [startOfWeek] at h hc hk
      omega

theorem jsRound_intCast (n : ℤ) : jsRound (n : ℚ) = n := by
  simp only [jsRound]
  rw [add_comm, Int.floor_add_int]
  norm_num

theorem tdiv_seven_eq_ediv {a : ℤ} (h : (7 : ℤ) ∣ a) : Int.tdiv a 7 = a / 7 := by
  obtain ⟨m, rfl⟩ := h
  rw [Int.mul_tdiv_cancel_left m (by norm_num),
    Int.mul_ediv_cancel_left m (by norm_num)]

theorem diffWeeks_startOfWeek (a b : Int) :
    diffWeeks (startOfWeek a) (startOfWeek b) =
      (startOfWeek a - startOfWeek b) / 7 :=
  tdiv_seven_eq_ediv (dvd_sub (dvd_startOfWeek a) (dvd_startOfWeek b))

/-- C2: for every task with `startDate ≤ endDate` and positive cell width,
`calculateTaskPosition` returns `width ≥ cellWidth - 2`, matching the daily
width formula `(diffInDays(end,start)+1)*cellWidth - 2` and the weekly
formula `max(1, weekDiff+1)*cellWidth - 2`; the width is positive for every
cell width of at least 3 (the program uses 40, 60, 80 and 120). -/
theorem width_lower_bound (task : GanttTask) (config : GanttConfig)
    (hcw : 0 < config.cellWidth) (h : task.startDate ≤ task.endDate) :
    config.cellWidth - 2 ≤ (calculateTaskPosition task config).width ∧
    (config.view = .daily →
      (calculateTaskPosition task config).width =
        (diffDays task.endDate task.startDate + 1) * config.cellWidth - 2) ∧
    (config.view = .weekly →
      (calculateTaskPosition task config).width =
        max 1 (diffWeeks (startOfWeek task.endDate)
          (startOfWeek task.startDate) + 1) * config.cellWidth - 2) ∧
    (3 ≤ config.cellWidth → 0 < (calculateTaskPosition task config).width) := by
  cases hv : config.view with
  | daily =>
      have hwidth : (calculateTaskPosition task config).width =
          (task.endDate - task.startDate + 1) * config.cellWidth - 2 := by
        simp [calculateTaskPosition, hv, diffDays]
      have hone : 1 ≤ task.endDate - task.startDate + 1 := by omega
      have hmul : config.cellWidth ≤
          (task.endDate - task.startDate + 1) * config.cellWidth := by
        nlinarith
      refine ⟨?_, ?_, ?_, ?_⟩
      · linarith
      · intro _
        rw [hwidth]
        simp [diffDays]
      · intro hcontra
        exact absurd hcontra (by decide)
      · intro h3
        linarith
  | weekly =>
      have hwidth : (calculateTaskPosition task config).width =
          max 1 (diffWeeks (startOfWeek task.endDate)
            (startOfWeek task.startDate) + 1) * config.cellWidth - 2 := by
        simp [calculateTaskPosition, hv]
      have hone : 1 ≤ max 1 (diffWeeks (startOfWeek task.endDate)
          (startOfWeek task.startDate) + 1) := le_max_left 1 _
      have hmul : config.cellWidth ≤
          max 1 (diffWeeks (startOfWeek task.endDate)
            (startOfWeek task.startDate) + 1) * config.cellWidth := by
        nlinarith
      refine ⟨?_, ?_, ?_, ?_⟩
      · linarith
      · intro hcontra
        exact absurd hcontra (by decide)
      · intro _
        exact hwidth
      · intro h3
        linarith

/-- C2 witness: the bound instantiated at a three-day task on the daily
default configuration. -/
theorem width_lower_bound_witness :
    c2Config.cellWidth - 2 ≤ (calculateTaskPosition c2Task c2Config).width ∧
    (c2Config.view = .daily →
      (calculateTaskPosition c2Task c2Config).width =
        (diffDays c2Task.endDate c2Task.startDate + 1) * c2Config.cellWidth - 2) ∧
    (c2Config.view = .weekly →
      (calculateTaskPosition c2Task c2Config).width =
        max 1 (diffWeeks (startOfWeek c2Task.endDate)
          (startOfWeek c2Task.startDate) + 1) * c2Config.cellWidth - 2) ∧
    (3 ≤ c2Config.cellWidth → 0 < (calculateTaskPosition c2Task c2Config).width) :=
  width_lower_bound c2Task c2Config (by decide) (by decide)

/-- C3 counterexample: on a task whose end (day 3) strictly precedes its
start (day 10), `calculateTaskPosition` does not fail fast: in weekly view
it silently clamps the bar to one week and returns the geometric result
`{left := 120, width := 118}`. -/
theorem position_mapper_no_fail_fast :
    calculateTaskPosition c3Task c3Config = { left := 120, width := 118 } := by
  decide

/-- C3 amended: `calculateTaskPosition` performs no validation on a task
with `endDate < startDate`: it still returns a geometric `{offset, width}`
result, whose width in daily view is negative (at most `-2`) and in weekly
view is silently clamped to the one-week width `cellWidth - 2`. -/
theorem position_mapper_inverted (task : GanttTask) (config : GanttConfig)
    (h : task.endDate < task.startDate) (hcw : 0 ≤ config.cellWidth) :
    (config.view = .daily → (calculateTaskPosition task config).width ≤ -2) ∧
    (config.view = .weekly →
      (calculateTaskPosition task config).width = config.cellWidth - 2) := by
  cases hv : config.view with
  | daily =>
      have hwidth : (calculateTaskPosition task config).width =
          (task.endDate - task.startDate + 1) * config.cellWidth - 2 := by
        simp [calculateTaskPosition, hv, diffDays]
      have hdur : task.endDate - task.startDate + 1 ≤ 0 := by omega
      have hmul : (task.endDate - task.startDate + 1) * config.cellWidth ≤ 0 := by
        exact mul_nonpos_iff.mpr (Or.inr ⟨hdur, hcw⟩)
      refine ⟨fun _ => ?_, fun hcontra => absurd hcontra (by decide)⟩
      linarith
  | weekly =>
      have hsow : startOfWeek task.endDate ≤ startOfWeek task.startDate :=
        startOfWeek_mono (le_of_lt h)
      have hmax : max 1
          ((startOfWeek task.endDate - startOfWeek task.startDate) / 7 + 1) = 1 := by
        omega
      have hwidth : (calculateTaskPosition task config).width =
          config.cellWidth - 2 := by
        simp only [calculateTaskPosition, hv, diffWeeks_startOfWeek]
        rw [hmax]
        ring
      exact ⟨fun hcontra => absurd hcontra (by decide), fun _ => hwidth⟩

/-- C3 amended witness: the amended statement instantiated at the inverted
task of the counterexample. -/
theorem position_mapper_inverted_witness :
    (c3Config.view = .daily →
      (calculateTaskPosition c3Task c3Config).width ≤ -2) ∧
    (c3Config.view = .weekly →
      (calculateTaskPosition c3Task c3Config).width = c3Config.cellWidth - 2) :=
  position_mapper_inverted c3Task c3Config (by decide) (by decide)

/-- C8: resize rejection is atomic: a start-edge candidate not strictly
before the current end is a no-op on the whole task record, an end-edge
candidate not strictly after the current start likewise, and for a task
satisfying the `startDate ≤ endDate` invariant neither resize step can
store an inverted range. -/
theorem resize_rejection (task : GanttTask) (c : Int) :
    (task.endDate ≤ c → resizeLeftStep task c = task) ∧
    (c ≤ task.startDate → resizeRightStep task c = task) ∧
    (task.startDate ≤ task.endDate →
      (resizeLeftStep task c).startDate ≤ (resizeLeftStep task c).endDate ∧
      (resizeRightStep task c).startDate ≤ (resizeRightStep task c).endDate) := by
  refine ⟨fun hr => ?_, fun hr => ?_, fun hinv => ⟨?_, ?_⟩⟩
  · unfold resizeLeftStep
    rw [if_neg (by omega)]
  · unfold resizeRightStep
    rw [if_neg (by omega)]
  · unfold resizeLeftStep
    split_ifs with hc
    · exact le_of_lt hc
    · exact hinv
  · unfold resizeRightStep
    split_ifs with hc
    · exact le_of_lt hc
    · exact hinv

/-- C8 witness: rejection of a start-edge candidate at day 7 (on/after the
end), rejection of an end-edge candidate at day 1 (on/before the start),
and invariant preservation for candidate day 4. -/
theorem resize_rejection_witness :
    resizeLeftStep c8Task 7 = c8Task ∧
    resizeRightStep c8Task 1 = c8Task ∧
    ((resizeLeftStep c8Task 4).startDate ≤ (resizeLeftStep c8Task 4).endDate ∧
      (resizeRightStep c8Task 4).startDate ≤ (resizeRightStep c8Task 4).endDate) :=
  ⟨(resize_rejection c8Task 7).1 (by decide),
   (resize_rejection c8Task 1).2.1 (by decide),
   (resize_rejection c8Task 4).2.2 (by decide)⟩

/-- C9: for the empty task list `calculateGanttDimensions` returns, without
error, the degenerate range centered on the current instant whose daily
enumeration covers exactly one day, with cell width 60 in daily view, 120
in weekly view, and row height 50. -/
theorem empty_default (now : Int) (view : TimelineView) :
    calculateGanttDimensions now [] view =
      { startDate := now, endDate := now,
        cellWidth := if view = .daily then 60 else 120, rowHeight := 50 } ∧
    (generateTimelineDates now now .daily).length = 1 := by
  refine ⟨rfl, ?_⟩
  simp only [generateTimelineDates, dailyGo_length]
  omega

/-! Fold bounds for the raw range minimum and maximum. -/

theorem foldl_min_le_seed (l : List GanttTask) (a : Int) :
    l.foldl (fun m u => min m u.startDate) a ≤ a := by
  induction l generalizing a with
  | nil => simp
  | cons x xs ih =>
      simp only [List.foldl_cons]
      exact le_trans (ih (min a x.startDate)) (min_le_left _ _)

theorem seed_le_foldl_max (l : List GanttTask) (a : Int) :
    a ≤ l.foldl (fun m u => max m u.endDate) a := by
  induction l generalizing a with
  | nil => simp
  | cons x xs ih =>
      simp only [List.foldl_cons]
      exact le_trans (le_max_left _ _) (ih (max a x.endDate))

theorem foldl_min_le_mem (u : GanttTask) :
    ∀ (l : List GanttTask) (a : Int), u ∈ l →
      l.foldl (fun m v => min m v.startDate) a ≤ u.startDate := by
  intro l
  induction l with
  | nil => intro a hu; cases hu
  | cons x xs ih =>
      intro a hu
      simp only [List.foldl_cons]
      rcases List.mem_cons.mp hu with h | h
      · subst h
        exact le_trans (foldl_min_le_seed xs _) (min_le_right _ _)
      · exact ih _ h

theorem mem_le_foldl_max (u : GanttTask) :
    ∀ (l : List GanttTask) (a : Int), u ∈ l →
      u.endDate ≤ l.foldl (fun m v => max m v.endDate) a := by
  intro l
  induction l with
  | nil => intro a hu; cases hu
  | cons x xs ih =>
      intro a hu
      simp only [List.foldl_cons]
      rcases List.mem_cons.mp hu with h | h
      · subst h
        exact le_trans (le_max_right _ _) (seed_le_foldl_max xs _)
      · exact ih _ h

theorem minStart_le (t : GanttTask) (ts : List GanttTask) :
    ∀ u ∈ t :: ts, minStart t ts ≤ u.startDate := by
  intro u hu
  rcases List.mem_cons.mp hu with h | h
  · subst h
    exact foldl_min_le_seed ts u.startDate
  · exact foldl_min_le_mem u ts t.startDate h

theorem le_maxEnd (t : GanttTask) (ts : List GanttTask) :
    ∀ u ∈ t :: ts, u.endDate ≤ maxEnd t ts := by
  intro u hu
  rcases List.mem_cons.mp hu with h | h
  · subst h
    exact seed_le_foldl_max ts u.endDate
  · exact mem_le_foldl_max u ts t.endDate h

/-- C4: for a non-empty task list whose tasks satisfy the
`startDate ≤ endDate` invariant, `calculateGanttDimensions` returns a range
with `startDate ≤ endDate` containing every task's span; in daily view the
range is `[min start − 1 week, max end + 1 week]` and in weekly view it is
additionally snapped outward to week boundaries. -/
theorem range_calculator (now : Int) (t : GanttTask) (ts : List GanttTask)
    (view : TimelineView)
    (hvalid : ∀ u ∈ t :: ts, u.startDate ≤ u.endDate) :
    (calculateGanttDimensions now (t :: ts) view).startDate ≤
      (calculateGanttDimensions now (t :: ts) view).endDate ∧
    (∀ u ∈ t :: ts,
      (calculateGanttDimensions now (t :: ts) view).startDate ≤ u.startDate ∧
      u.endDate ≤ (calculateGanttDimensions now (t :: ts) view).endDate) ∧
    (view = .daily →
      calculateGanttDimensions now (t :: ts) view =
        { startDate := minStart t ts - 7, endDate := maxEnd t ts + 7,
          cellWidth := 60, rowHeight := 50 }) ∧
    (view = .weekly →
      calculateGanttDimensions now (t :: ts) view =
        { startDate := startOfWeek (minStart t ts - 7),
          endDate := endOfWeek (maxEnd t ts + 7),
          cellWidth := 120, rowHeight := 50 }) := by
  have hmn := minStart_le t ts
  have hmx := le_maxEnd t ts
  have hmnmx : minStart t ts ≤ maxEnd t ts :=
    le_trans (hmn t (by simp))
      (le_trans (hvalid t (by simp)) (hmx t (by simp)))
  cases hv : view with
  | daily =>
      have hdim : calculateGanttDimensions now (t :: ts) .daily =
          { startDate := minStart t ts - 7, endDate := maxEnd t ts + 7,
            cellWidth := 60, rowHeight := 50 } := by
        simp [calculateGanttDimensions, minStart, maxEnd]
      rw [hdim]
      dsimp only
      refine ⟨by omega, fun u hu => ?_, fun _ => rfl,
        fun hcontra => absurd hcontra (by decide)⟩
      have h1 := hmn u hu
      have h2 := hmx u hu
      constructor <;> [omega; omega]
  | weekly =>
      have hdim : calculateGanttDimensions now (t :: ts) .weekly =
          { startDate := startOfWeek (minStart t ts - 7),
            endDate := endOfWeek (maxEnd t ts + 7),
            cellWidth := 120, rowHeight := 50 } := by
        simp [calculateGanttDimensions, minStart, maxEnd]
      rw [hdim]
      dsimp only
      have hsow := startOfWeek_le (minStart t ts - 7)
      have heow := le_endOfWeek (maxEnd t ts + 7)
      refine ⟨by omega, fun u hu => ?_,
        fun hcontra => absurd hcontra (by decide), fun _ => rfl⟩
      have h1 := hmn u hu
      have h2 := hmx u hu
      constructor <;> [omega; omega]

/-- C4 witness: the guarantee instantiated at a two-task list in weekly
view. -/
theorem range_calculator_witness :
    (calculateGanttDimensions 0 (c4Task1 :: [c4Task2]) .weekly).startDate ≤
      (calculateGanttDimensions 0 (c4Task1 :: [c4Task2]) .weekly).endDate ∧
    (∀ u ∈ c4Task1 :: [c4Task2],
      (calculateGanttDimensions 0 (c4Task1 :: [c4Task2]) .weekly).startDate ≤
        u.startDate ∧
      u.endDate ≤
        (calculateGanttDimensions 0 (c4Task1 :: [c4Task2]) .weekly).endDate) ∧
    (TimelineView.weekly = .daily →
      calculateGanttDimensions 0 (c4Task1 :: [c4Task2]) .weekly =
        { startDate := minStart c4Task1 [c4Task2] - 7,
          endDate := maxEnd c4Task1 [c4Task2] + 7,
          cellWidth := 60, rowHeight := 50 }) ∧
    (TimelineView.weekly = .weekly →
      calculateGanttDimensions 0 (c4Task1 :: [c4Task2]) .weekly =
        { startDate := startOfWeek (minStart c4Task1 [c4Task2] - 7),
          endDate := endOfWeek (maxEnd c4Task1 [c4Task2] + 7),
          cellWidth := 120, rowHeight := 50 }) :=
  range_calculator 0 c4Task1 [c4Task2] .weekly (by decide)

/-- C5: for `startDate ≤ endDate` the enumerator returns a sequence of
length at least 1 whose first entry is the start date (daily) or the start
of its week (weekly), hence at most the start date; consecutive entries
advance by exactly one period; and the last entry is the end date (daily)
or the start of the end date's week (weekly), whose period contains the
end date. -/
theorem enumerator_totality (s e : Int) (view : TimelineView) (h : s ≤ e) :
    1 ≤ (generateTimelineDates s e view).length ∧
    (generateTimelineDates s e view)[0]? =
      some (if view = .daily then s else startOfWeek s) ∧
    (if view = .daily then s else startOfWeek s) ≤ s ∧
    (∀ k d, (generateTimelineDates s e view)[k]? = some d →
      k + 1 < (generateTimelineDates s e view).length →
      (generateTimelineDates s e view)[k + 1]? =
        some (d + (if view = .daily then 1 else 7))) ∧
    (∃ last,
      (generateTimelineDates s e view)[
        (generateTimelineDates s e view).length - 1]? = some last ∧
      (view = .daily → last = e) ∧
      (view = .weekly → isSameWeek last e = true)) := by
  cases hv : view with
  | daily =>
      simp only [generateTimelineDates, if_pos rfl, dailyGo_length]
      have hlen : 1 ≤ (e + 1 - s).toNat := by omega
      refine ⟨hlen, ?_, le_refl s, ?_, ?_⟩
      · rw [dailyGo_getElem s e 0 (by omega)]
        simp
      · intro k d hd hk1
        rw [dailyGo_getElem s e k (by omega)] at hd
        rw [dailyGo_getElem s e (k + 1) (by omega)]
        obtain rfl : s + (k : ℤ) = d := by
          simpa using hd
        push_cast
        ring_nf
      · refine ⟨e, ?_, fun _ => rfl, fun hcontra => absurd hcontra (by decide)⟩
        rw [dailyGo_getElem s e ((e + 1 - s).toNat - 1) (by omega)]
        congr 1
        omega
  | weekly =>
      have hc : startOfWeek (startOfWeek s) = startOfWeek s := startOfWeek_idem s
      have hmono : startOfWeek s ≤ startOfWeek e := startOfWeek_mono h
      have hdvd : (7 : ℤ) ∣ startOfWeek e - startOfWeek s :=
        dvd_sub (dvd_startOfWeek e) (dvd_startOfWeek s)
      simp only [generateTimelineDates]
      rw [show (if TimelineView.weekly = TimelineView.daily then s
        else startOfWeek s) = startOfWeek s by simp,
        show (if TimelineView.weekly = TimelineView.daily then (1 : ℤ)
        else 7) = 7 by simp]
      rw [weeklyGo_length (startOfWeek s) e hc]
      have hlen : 1 ≤ ((startOfWeek e - startOfWeek s) / 7 + 1).toNat := by
        omega
      refine ⟨hlen, ?_, startOfWeek_le s, ?_, ?_⟩
      · rw [weeklyGo_getElem (startOfWeek s) e hc 0 (by omega)]
        simp
      · intro k d hd hk1
        rw [weeklyGo_getElem (startOfWeek s) e hc k (by omega)] at hd
        rw [weeklyGo_getElem (startOfWeek s) e hc (k + 1) (by omega)]
        obtain rfl : startOfWeek s + 7 * (k : ℤ) = d := by
          simpa using hd
        push_cast
        ring_nf
      · refine ⟨startOfWeek e, ?_, fun hcontra => absurd hcontra (by decide),
          fun _ => ?_⟩
        · rw [weeklyGo_getElem (startOfWeek s) e hc
            (((startOfWeek e - startOfWeek s) / 7 + 1).toNat - 1) (by omega)]
          congr 1
          omega
        · simp [isSameWeek, startOfWeek_idem]

/-- C5 witness: totality instantiated at the range from day 3 to day 17 in
weekly view. -/
theorem enumerator_totality_witness :
    1 ≤ (generateTimelineDates 3 17 .weekly).length ∧
    (generateTimelineDates 3 17 .weekly)[0]? =
      some (if TimelineView.weekly = .daily then 3 else startOfWeek 3) ∧
    (if TimelineView.weekly = .daily then (3 : ℤ) else startOfWeek 3) ≤ 3 ∧
    (∀ k d, (generateTimelineDates 3 17 .weekly)[k]? = some d →
      k + 1 < (generateTimelineDates 3 17 .weekly).length →
      (generateTimelineDates 3 17 .weekly)[k + 1]? =
        some (d + (if TimelineView.weekly = .daily then 1 else 7))) ∧
    (∃ last,
      (generateTimelineDates 3 17 .weekly)[
        (generateTimelineDates 3 17 .weekly).length - 1]? = some last ∧
      (TimelineView.weekly = .daily → last = 17) ∧
      (TimelineView.weekly = .weekly → isSameWeek last 17 = true)) :=
  enumerator_totality 3 17 .weekly (by decide)

theorem range'_append_one (s m n : ℕ) :
    List.range' s m ++ List.range' (s + m) n = List.range' s (m + n) := by
  have h := List.range'_append s m n 1
  rw [Nat.one_mul] at h
  rw [Nat.add_comm m n]
  exact h

theorem flatMap_congr_mem {α β : Type} (l : List α) (f g : α → List β)
    (h : ∀ a ∈ l, f a = g a) : l.flatMap f = l.flatMap g := by
  induction l with
  | nil => rfl
  | cons x xs ih =>
      simp only [List.flatMap_cons]
      rw [h x (by simp), ih (fun a ha => h a (by simp [ha]))]

theorem emitTasks_spec (ts : List GanttTask) (i : Nat) :
    (emitTasks ts i).1.map rowShape = ts.map RowShape.task ∧
    (emitTasks ts i).1.map rowIndex = List.range' i ts.length ∧
    (emitTasks ts i).2 = i + ts.length := by
  induction ts generalizing i with
  | nil => simp [emitTasks]
  | cons x xs ih =>
      obtain ⟨h1, h2, h3⟩ := ih (i + 1)
      simp only [emitTasks, List.map_cons, List.length_cons]
      refine ⟨?_, ?_, ?_⟩
      · rw [h1]
        rfl
      · show (rowIndex (GanttRow.task x i)) ::
          (emitTasks xs (i + 1)).1.map rowIndex = List.range' i (xs.length + 1)
        rw [h2, List.range'_succ]
        rfl
      · rw [h3]
        omega

theorem emitGroups_spec (tasks : List GanttTask) (gs : List TaskGroup) (i : Nat) :
    (emitGroups tasks gs i).1.map rowShape =
      gs.flatMap (fun g => RowShape.group g ::
        (tasksByGroup tasks g.id).map RowShape.task) ∧
    (emitGroups tasks gs i).1.map rowIndex =
      List.range' i (emitGroups tasks gs i).1.length ∧
    (emitGroups tasks gs i).2 = i + (emitGroups tasks gs i).1.length := by
  induction gs generalizing i with
  | nil => simp [emitGroups]
  | cons g gs ih =>
      obtain ⟨ht1, ht2, ht3⟩ := emitTasks_spec (tasksByGroup tasks g.id) (i + 1)
      have hmlen : (emitTasks (tasksByGroup tasks g.id) (i + 1)).1.length =
          (tasksByGroup tasks g.id).length := by
        have := congrArg List.length ht2
        simpa using this
      obtain ⟨hg1, hg2, hg3⟩ :=
        ih (emitTasks (tasksByGroup tasks g.id) (i + 1)).2
      simp only [emitGroups, List.map_cons, List.map_append, List.flatMap_cons,
        List.length_cons, List.length_append]
      refine ⟨?_, ?_, ?_⟩
      · rw [ht1, hg1]
        rfl
      · show (rowIndex (GanttRow.group g i)) ::
          ((emitTasks (tasksByGroup tasks g.id) (i + 1)).1.map rowIndex ++
            (emitGroups tasks gs
              (emitTasks (tasksByGroup tasks g.id) (i + 1)).2).1.map rowIndex) =
          List.range' i _
        rw [ht2, hg2, ht3, hmlen, range'_append_one,
          Nat.add_right_comm (tasksByGroup tasks g.id).length 1
            (emitGroups tasks gs
              (i + 1 + (tasksByGroup tasks g.id).length)).1.length,
          List.range'_succ]
        rfl
      · rw [hg3, ht3]
        omega

theorem tasksByGroup_of_ne_sentinel (tasks : List GanttTask) (gid : String)
    (hne : gid ≠ "ungrouped") :
    tasksByGroup tasks gid =
      tasks.filter (fun u => u.groupId == some gid) := by
  apply List.filter_congr
  intro u _
  cases hu : u.groupId with
  | none =>
      simp only [bucketKey, hu, Option.getD_none, Option.getD_some]
      rw [beq_eq_false_iff_ne.mpr (fun hc => hne hc.symm)]
      rfl
  | some s =>
      simp only [bucketKey, hu, Option.getD_some]
      rfl

theorem tasksByGroup_ungrouped (tasks : List GanttTask)
    (ht : ∀ u ∈ tasks, u.groupId ≠ some "ungrouped") :
    tasksByGroup tasks "ungrouped" =
      tasks.filter (fun u => u.groupId == none) := by
  apply List.filter_congr
  intro u hu
  cases h : u.groupId with
  | none => simp [bucketKey, h]
  | some s =>
      have hs : s ≠ "ungrouped" := fun hc => (ht u hu) (by rw [h, hc])
      simp only [bucketKey, h, Option.getD_some]
      rw [beq_eq_false_iff_ne.mpr hs]
      rfl

/-- C6: for a task list and group list that do not use the code's reserved
bucket key `"ungrouped"` as a real id, the Row Organizer emits, in order,
one header row per group followed by that group's member tasks in original
relative order, then the tasks without a group in original order, and the
emitted rows carry row indices exactly `0, 1, 2, …` in emission order. -/
theorem organizer_ordering (tasks : List GanttTask) (groups : List TaskGroup)
    (hg : ∀ g ∈ groups, g.id ≠ "ungrouped")
    (ht : ∀ u ∈ tasks, u.groupId ≠ some "ungrouped") :
    (organizedRows tasks groups).map rowShape =
      (groups.flatMap (fun g => RowShape.group g ::
        (tasks.filter (fun u => u.groupId == some g.id)).map RowShape.task)) ++
      (tasks.filter (fun u => u.groupId == none)).map RowShape.task ∧
    (organizedRows tasks groups).map rowIndex =
      List.range (organizedRows tasks groups).length := by
  obtain ⟨hg1, hg2, hg3⟩ := emitGroups_spec tasks groups 0
  obtain ⟨hu1, hu2, hu3⟩ :=
    emitTasks_spec (tasksByGroup tasks "ungrouped") (emitGroups tasks groups 0).2
  have hulen : (emitTasks (tasksByGroup tasks "ungrouped")
      (emitGroups tasks groups 0).2).1.length =
      (tasksByGroup tasks "ungrouped").length := by
    have := congrArg List.length hu2
    simpa using this
  constructor
  · show ((emitGroups tasks groups 0).1 ++
      (emitTasks (tasksByGroup tasks "ungrouped")
        (emitGroups tasks groups 0).2).1).map rowShape = _
    rw [List.map_append, hg1, hu1, tasksByGroup_ungrouped tasks ht]
    congr 1
    exact flatMap_congr_mem groups _ _ (fun g hgm => by
      rw [tasksByGroup_of_ne_sentinel tasks g.id (hg g hgm)])
  · show ((emitGroups tasks groups 0).1 ++
      (emitTasks (tasksByGroup tasks "ungrouped")
        (emitGroups tasks groups 0).2).1).map rowIndex = _
    rw [List.map_append, hg2, hu2, hg3, Nat.zero_add]
    have hrows : organizedRows tasks groups =
        (emitGroups tasks groups 0).1 ++
        (emitTasks (tasksByGroup tasks "ungrouped")
          (emitGroups tasks groups 0).2).1 := rfl
    rw [hrows, List.length_append, hulen, List.range_eq_range']
    have happ := range'_append_one 0 (emitGroups tasks groups 0).1.length
      (tasksByGroup tasks "ungrouped").length
    rw [Nat.zero_add] at happ
    exact happ

/-- C6 witness: the ordering instantiated at the spec's example, groups
`[G1, G2]` and tasks `[T1→G1, T2→none, T3→G2, T4→G1]`, whose row order is
`G1, T1, T4, G2, T3, T2`. -/
theorem organizer_ordering_witness :
    (organizedRows [c6T1, c6T2, c6T3, c6T4] [c6Group1, c6Group2]).map rowShape =
      ([c6Group1, c6Group2].flatMap (fun g => RowShape.group g ::
        ([c6T1, c6T2, c6T3, c6T4].filter
          (fun u => u.groupId == some g.id)).map RowShape.task)) ++
      ([c6T1, c6T2, c6T3, c6T4].filter
        (fun u => u.groupId == none)).map RowShape.task ∧
    (organizedRows [c6T1, c6T2, c6T3, c6T4] [c6Group1, c6Group2]).map rowIndex =
      List.range
        (organizedRows [c6T1, c6T2, c6T3, c6T4] [c6Group1, c6Group2]).length :=
  organizer_ordering [c6T1, c6T2, c6T3, c6T4] [c6Group1, c6Group2]
    (by decide) (by decide)

theorem mem_emitTasks_exists (r : GanttRow) (ts : List GanttTask) (i : Nat)
    (hr : r ∈ (emitTasks ts i).1) : ∃ u j, r = GanttRow.task u j ∧ u ∈ ts := by
  induction ts generalizing i with
  | nil => cases hr
  | cons x xs ih =>
      simp only [emitTasks, List.mem_cons] at hr
      rcases hr with hr | hr
      · exact ⟨x, i, hr, by simp⟩
      · obtain ⟨u, j, heq, hmem⟩ := ih (i + 1) hr
        exact ⟨u, j, heq, by simp [hmem]⟩

theorem mem_emitGroups_exists (r : GanttRow) (tasks : List GanttTask)
    (gs : List TaskGroup) (i : Nat) (hr : r ∈ (emitGroups tasks gs i).1) :
    (∃ g j, r = GanttRow.group g j) ∨
    (∃ g, g ∈ gs ∧ ∃ u j, r = GanttRow.task u j ∧
      u ∈ tasksByGroup tasks g.id) := by
  induction gs generalizing i with
  | nil => cases hr
  | cons g gs ih =>
      replace hr : r ∈ GanttRow.group g i ::
          ((emitTasks (tasksByGroup tasks g.id) (i + 1)).1 ++
          (emitGroups tasks gs
            (emitTasks (tasksByGroup tasks g.id) (i + 1)).2).1) := hr
      rcases List.mem_cons.mp hr with hr | hr
      · exact Or.inl ⟨g, i, hr⟩
      rcases List.mem_append.mp hr with hr | hr
      · obtain ⟨u, j, heq, hmem⟩ := mem_emitTasks_exists r _ _ hr
        exact Or.inr ⟨g, by simp, u, j, heq, hmem⟩
      · rcases ih _ hr with h | ⟨g2, hg2, rest⟩
        · exact Or.inl h
        · exact Or.inr ⟨g2, by simp [hg2], rest⟩

theorem bucketKey_of_mem_tasksByGroup (tasks : List GanttTask) (k : String)
    (u : GanttTask) (hu : u ∈ tasksByGroup tasks k) : bucketKey u = k := by
  simp only [tasksByGroup, List.mem_filter] at hu
  exact beq_iff_eq.mp hu.2

/-- C7 counterexample: a task pointing at the nonexistent group `"g1"`
vanishes from the organizer's output entirely instead of appearing as an
ungrouped row. -/
theorem dangling_group_not_emitted :
    organizedRows [c7Task] [] = [] := by
  rfl

/-- C7 amended: a task whose `groupId` names no group in the given group
list (and is not the code's reserved key `"ungrouped"`) is dropped by the
Row Organizer: no row for it appears in the output, neither under a group
header nor among the ungrouped tasks. -/
theorem dangling_group_dropped (tasks : List GanttTask)
    (groups : List TaskGroup) (u : GanttTask) (g : String)
    (hgid : u.groupId = some g) (hne : g ≠ "ungrouped")
    (hmiss : ∀ gr ∈ groups, gr.id ≠ g) (j : Nat) :
    GanttRow.task u j ∉ organizedRows tasks groups := by
  intro hmem
  have hkey : bucketKey u = g := by simp [bucketKey, hgid]
  rcases List.mem_append.mp hmem with hm | hm
  · rcases mem_emitGroups_exists _ tasks groups 0 hm with ⟨g2, j2, heq⟩ |
      ⟨gr, hgr, u2, j2, heq, hu2⟩
    · cases heq
    · injection heq with h1 h2
      subst h1
      exact hmiss gr hgr
        (by rw [← bucketKey_of_mem_tasksByGroup tasks gr.id u hu2]; exact hkey)
  · obtain ⟨u2, j2, heq, hu2⟩ := mem_emitTasks_exists _ _ _ hm
    injection heq with h1 h2
    subst h1
    exact hne
      (by rw [← hkey]; exact bucketKey_of_mem_tasksByGroup tasks "ungrouped" u hu2)

/-- C7 amended witness: the dangling task of the counterexample has no row
at index 0 in the organizer's output. -/
theorem dangling_group_dropped_witness :
    GanttRow.task c7Task 0 ∉ organizedRows [c7Task] [] :=
  dangling_group_dropped [c7Task] [] c7Task "g1" rfl (by decide)
    (by intro gr hgr; cases hgr) 0

theorem intCast_mul_div_cancel (a b : ℤ) (hb : b ≠ 0) :
    ((a * b : ℤ) : ℚ) / (b : ℚ) = (a : ℚ) := by
  push_cast
  field_simp

/-- C1: a task lying inside the config's range round-trips: its forward
pixel offset, mapped back through the inverse mapper over the same
enumerated sequence, lands on a date in the same day as the task's start
in daily view, and in the same week in weekly view. -/
theorem round_trip (task : GanttTask) (config : GanttConfig)
    (hcw : 0 < config.cellWidth)
    (h1 : config.startDate ≤ task.startDate)
    (h2 : task.startDate ≤ task.endDate)
    (h3 : task.endDate ≤ config.endDate) :
    ∃ d, getDateFromPosition config
        (((calculateTaskPosition task config).left : ℤ) : ℚ) = some d ∧
      (config.view = .daily → d = task.startDate) ∧
      (config.view = .weekly → isSameWeek d task.startDate = true) := by
  have hb : config.cellWidth ≠ 0 := by omega
  cases hv : config.view with
  | daily =>
      refine ⟨task.startDate, ?_, fun _ => rfl,
        fun hcontra => absurd hcontra (by decide)⟩
      have hleft : (calculateTaskPosition task config).left =
          (task.startDate - config.startDate) * config.cellWidth := by
        simp [calculateTaskPosition, hv, diffDays]
      rw [hleft]
      simp only [getDateFromPosition, generateTimelineDates, hv]
      rw [intCast_mul_div_cancel _ _ hb, jsRound_intCast, dailyGo_length]
      have hclamp : max 0 (min (task.startDate - config.startDate)
          ((((config.endDate + 1 - config.startDate).toNat : ℤ)) - 1)) =
          task.startDate - config.startDate := by
        omega
      rw [hclamp, dailyGo_getElem config.startDate config.endDate
        (task.startDate - config.startDate).toNat (by omega)]
      congr 1
      omega
  | weekly =>
      refine ⟨startOfWeek task.startDate, ?_,
        fun hcontra => absurd hcontra (by decide),
        fun _ => by simp [isSameWeek, startOfWeek_idem]⟩
      have hd1 : (7 : ℤ) ∣ startOfWeek task.startDate - startOfWeek config.startDate :=
        dvd_sub (dvd_startOfWeek _) (dvd_startOfWeek _)
      have hd2 : (7 : ℤ) ∣ startOfWeek config.endDate - startOfWeek config.startDate :=
        dvd_sub (dvd_startOfWeek _) (dvd_startOfWeek _)
      have hm1 : startOfWeek config.startDate ≤ startOfWeek task.startDate :=
        startOfWeek_mono h1
      have hm2 : startOfWeek task.startDate ≤ startOfWeek config.endDate :=
        startOfWeek_mono (le_trans h2 h3)
      have hleft : (calculateTaskPosition task config).left =
          ((startOfWeek task.startDate - startOfWeek config.startDate) / 7) *
            config.cellWidth := by
        simp [calculateTaskPosition, hv, diffWeeks_startOfWeek]
      rw [hleft]
      simp only [getDateFromPosition, generateTimelineDates, hv]
      rw [intCast_mul_div_cancel _ _ hb, jsRound_intCast,
        weeklyGo_length (startOfWeek config.startDate) config.endDate
          (startOfWeek_idem config.startDate)]
      have hclamp : max 0 (min
          ((startOfWeek task.startDate - startOfWeek config.startDate) / 7)
          (((((startOfWeek config.endDate - startOfWeek config.startDate) / 7 +
            1).toNat : ℤ)) - 1)) =
          (startOfWeek task.startDate - startOfWeek config.startDate) / 7 := by
        omega
      rw [hclamp, weeklyGo_getElem (startOfWeek config.startDate)
        config.endDate (startOfWeek_idem config.startDate)
        ((startOfWeek task.startDate - startOfWeek config.startDate) / 7).toNat
        (by omega)]
      congr 1
      omega

/-- C1 witness: the round trip instantiated at a task spanning days 5-8 of
a daily config covering days 0-20. -/
theorem round_trip_witness :
    ∃ d, getDateFromPosition c1Config
        (((calculateTaskPosition c1Task c1Config).left : ℤ) : ℚ) = some d ∧
      (c1Config.view = .daily → d = c1Task.startDate) ∧
      (c1Config.view = .weekly → isSameWeek d c1Task.startDate = true) :=
  round_trip c1Task c1Config (by decide) (by decide) (by decide) (by decide)

theorem findIdx?_cons_eq {α : Type} (p : α → Bool) (x : α) (xs : List α) :
    (x :: xs).findIdx? p =
      if p x then some 0 else (xs.findIdx? p).map (· + 1) := by
  simp [List.findIdx?_cons]

theorem findIdx?_none_iff {α : Type} (p : α → Bool) (l : List α) :
    l.findIdx? p = none ↔ ∀ x ∈ l, p x = false := by
  induction l with
  | nil => simp
  | cons x xs ih =>
      rw [findIdx?_cons_eq]
      cases hp : p x with
      | true => simp [hp, List.forall_mem_cons]
      | false => simp [hp, ih, List.forall_mem_cons]

theorem findIdx?_first {α : Type} (p : α → Bool) (l : List α) :
    ∀ (i : Nat) (d : α), l[i]? = some d → p d = true →
      (∀ j dj, j < i → l[j]? = some dj → p dj = false) →
      l.findIdx? p = some i := by
  induction l with
  | nil =>
      intro i d hd
      simp at hd
  | cons x xs ih =>
      intro i d hd hp hfirst
      rw [findIdx?_cons_eq]
      match i with
      | 0 =>
          simp only [List.getElem?_cons_zero] at hd
          obtain rfl : x = d := by injection hd
          rw [if_pos hp]
      | k + 1 =>
          have hx : p x = false := hfirst 0 x (by omega) (by simp)
          rw [if_neg (by simp [hx])]
          rw [ih k d (by simpa using hd) hp
            (fun j dj hj hdj => hfirst (j + 1) dj (by omega) (by simpa using hdj))]
          rfl

/-- C10: the today locator returns no position exactly when no enumerated
cell matches today (same day in daily view, same week in weekly view), and
at the first matching index `i` it returns
`i*cellWidth + cellWidth/2` in daily view and
`i*cellWidth + (daysFromWeekStart/7)*cellWidth` in weekly view, where
`daysFromWeekStart` counts days from the matched week's start to today. -/
theorem today_locator (config : GanttConfig) (today : Int) :
    (todayPosition config today = none ↔
      ∀ d ∈ generateTimelineDates config.startDate config.endDate config.view,
        todayMatches config.view today d = false) ∧
    (∀ (i : ℕ) (d : ℤ),
      (generateTimelineDates config.startDate config.endDate config.view)[i]? =
        some d →
      todayMatches config.view today d = true →
      (∀ (j : ℕ) (dj : ℤ), j < i →
        (generateTimelineDates config.startDate config.endDate
          config.view)[j]? = some dj →
        todayMatches config.view today dj = false) →
      todayPosition config today =
        some (if config.view = .daily then
            (i : ℚ) * config.cellWidth + (config.cellWidth : ℚ) / 2
          else
            (i : ℚ) * config.cellWidth +
              (((today - startOfWeek d : ℤ) : ℚ) / 7) * config.cellWidth)) := by
  cases hv : config.view with
  | daily =>
      constructor
      · cases hfi : (generateTimelineDates config.startDate config.endDate
            .daily).findIdx? (fun d => d == today) with
        | none =>
            refine iff_of_true ?_ ?_
            · simp [todayPosition, hv, hfi]
            · exact (findIdx?_none_iff _ _).mp hfi
        | some k =>
            refine iff_of_false ?_ ?_
            · simp [todayPosition, hv, hfi]
            · intro hall
              have hnone := (findIdx?_none_iff
                (fun d => d == today)
                (generateTimelineDates config.startDate config.endDate
                  .daily)).mpr (fun d hd => hall d hd)
              rw [hnone] at hfi
              cases hfi
      · intro i d hd hp hfirst
        have hfi := findIdx?_first (fun d => d == today)
          (generateTimelineDates config.startDate config.endDate .daily)
          i d hd hp (fun j dj hj hdj => hfirst j dj hj hdj)
        simp [todayPosition, hv, hfi]
  | weekly =>
      constructor
      · cases hfi : (generateTimelineDates config.startDate config.endDate
            .weekly).findIdx? (fun d => isSameWeek today d) with
        | none =>
            refine iff_of_true ?_ ?_
            · simp [todayPosition, hv, hfi]
            · exact (findIdx?_none_iff _ _).mp hfi
        | some k =>
            refine iff_of_false ?_ ?_
            · simp [todayPosition, hv, hfi]
            · intro hall
              have hnone := (findIdx?_none_iff
                (fun d => isSameWeek today d)
                (generateTimelineDates config.startDate config.endDate
                  .weekly)).mpr (fun d hd => hall d hd)
              rw [hnone] at hfi
              cases hfi
      · intro i d hd hp hfirst
        have hfi := findIdx?_first (fun d => isSameWeek today d)
          (generateTimelineDates config.startDate config.endDate .weekly)
          i d hd hp (fun j dj hj hdj => hfirst j dj hj hdj)
        simp [todayPosition, hv, hfi, hd]

/-- C10 witness: in the daily config covering days 3-9 with today = day 3,
the locator puts the indicator at the middle of cell 0. -/
theorem today_locator_witness :
    todayPosition c10Config 3 =
      some (if c10Config.view = .daily then
          ((0 : ℕ) : ℚ) * c10Config.cellWidth + (c10Config.cellWidth : ℚ) / 2
        else
          ((0 : ℕ) : ℚ) * c10Config.cellWidth +
            (((3 - startOfWeek 3 : ℤ) : ℚ) / 7) * c10Config.cellWidth) :=
  (today_locator c10Config 3).2 0 3
    (by
      have := dailyGo_getElem 3 9 0 (by decide)
      simpa [generateTimelineDates] using this)
    (by decide)
    (fun j dj hj hdj => absurd hj (by omega))

end Ganttra
